import Mathlib

/-!
Verification development for the Adaptive Learning Companion repository
(`ingest_data.py`, `tools.py`, `graph.py`).

Python strings are modelled as `List Char` (`PyStr`); machine floats are
modelled as exact rationals `ℚ`; the SQLite database is modelled as a record
holding the `student_progress` table (a keyed map) and the `study_sessions`
table (an append-only list); fallible operations return `Option`.
-/

/-- Python `str` is modelled as a list of unicode characters. -/
abbrev PyStr := List Char

/-- Characters stripped by Python `str.strip()` (space, tab, newline,
carriage return, vertical tab, form feed). -/
def isPyWhitespace (c : Char) : Bool :=
  c = ' ' || c = '\t' || c = '\n' || c = '\r' || c = '\x0b' || c = '\x0c'

/-- Python `s.strip()`: drop leading and trailing whitespace. -/
def pyStrip (s : PyStr) : PyStr :=
  ((s.dropWhile isPyWhitespace).reverse.dropWhile isPyWhitespace).reverse

/-- Python `s[-k:]` (used for the chunk overlap): for `k = 0` this is the
whole string (Python `s[-0:] = s[0:]`), otherwise the last `min k (len s)`
characters. -/
def pySliceLast (k : Nat) (s : PyStr) : PyStr :=
  if k = 0 then s else s.drop (s.length - k)

/-- Python `s[:k]`: the first `k` characters. -/
def pyTake (k : Nat) (s : PyStr) : PyStr := s.take k

/-- Fuel-driven worker for `pySplitOn` (structural recursion on fuel so that
the kernel can evaluate it). -/
def splitOnAux (sep : PyStr) : Nat → PyStr → PyStr → List PyStr
  | 0, acc, s => [acc.reverse ++ s]
  | fuel + 1, acc, s =>
    match s with
    | [] => [acc.reverse]
    | c :: rest =>
      if sep.isPrefixOf s then
        acc.reverse :: splitOnAux sep fuel [] (s.drop sep.length)
      else
        splitOnAux sep fuel (c :: acc) rest

/-- Python `s.split(sep)` for a non-empty separator: split on each
non-overlapping occurrence, scanning left to right, keeping empty pieces. -/
def pySplitOn (sep : PyStr) (s : PyStr) : List PyStr :=
  splitOnAux sep (s.length + 1) [] s

/-- The two-character paragraph separator `"\n\n"`. -/
def nl2 : PyStr := ['\n', '\n']

/-- Python `int(digit-string)` for a non-empty run of decimal digits. -/
def digitsToNat (ds : PyStr) : Nat :=
  ds.foldl (fun n c => n * 10 + (c.toNat - 48)) 0

/-!  ## Chunking (`ingest_data.semantic_chunk`)  -/

/-- One element of `re.split(r'(\[PAGE_\d+\])', text)`: either a captured
page marker (classified by the `re.match(r'\[PAGE_(\d+)\]', segment)` test in
the loop) or a plain text segment, which never contains a full marker. -/
inductive Segment where
  | marker (n : Nat)
  | text (s : PyStr)
deriving Repr, DecidableEq

/-- Try to match the regex `\[PAGE_\d+\]` at the head of `s`; on success
return the page number and the remaining characters. -/
def matchPageMarker (s : PyStr) : Option (Nat × PyStr) :=
  match s with
  | '[' :: 'P' :: 'A' :: 'G' :: 'E' :: '_' :: rest =>
    let ds := rest.takeWhile Char.isDigit
    if ds.isEmpty then none
    else
      match rest.drop ds.length with
      | ']' :: after => some (digitsToNat ds, after)
      | _ => none
  | _ => none

/-- Fuel-driven scanner implementing `re.split(r'(\[PAGE_\d+\])', text)`:
emits the (possibly empty) text before each leftmost marker occurrence, the
marker itself, and the trailing text. -/
def scanSegmentsAux : Nat → PyStr → PyStr → List Segment
  | 0, acc, s => [.text (acc.reverse ++ s)]
  | fuel + 1, acc, s =>
    match s with
    | [] => [.text acc.reverse]
    | c :: rest =>
      match matchPageMarker s with
      | some (n, after) => .text acc.reverse :: .marker n :: scanSegmentsAux fuel [] after
      | none => scanSegmentsAux fuel (c :: acc) rest

/-- `re.split(r'(\[PAGE_\d+\])', text)` with markers classified. -/
def scanSegments (s : PyStr) : List Segment :=
  scanSegmentsAux (s.length + 1) [] s

/-- A chunk produced by `semantic_chunk` (the dict
`{'text': ..., 'chunk_index': ..., 'start_page': ...}`). -/
structure Chunk where
  text : PyStr
  chunk_index : Nat
  start_page : Nat
deriving Repr, DecidableEq

/-- The loop state of `semantic_chunk`: accumulated chunks, the running
buffer, the page of the last marker seen, the page recorded when the current
buffer started, and the next chunk index. -/
structure ChunkState where
  chunks : List Chunk
  current_chunk : PyStr
  current_page : Nat
  chunk_start_page : Nat
  idx : Nat
deriving Repr

/-- The body of the inner `for para in paragraphs` loop of `semantic_chunk`. -/
def processPara (max_chunk_size overlap : Nat) (st : ChunkState) (para0 : PyStr) :
    ChunkState :=
  let para := pyStrip para0
  if para.isEmpty then st
  else if st.current_chunk.length + para.length ≤ max_chunk_size then
    { st with
      chunk_start_page := if st.current_chunk.isEmpty then st.current_page
                          else st.chunk_start_page
      current_chunk := st.current_chunk ++ para ++ nl2 }
  else
    let st1 :=
      if st.current_chunk.isEmpty then st
      else { st with
             chunks := st.chunks ++ [⟨pyStrip st.current_chunk, st.idx, st.chunk_start_page⟩]
             idx := st.idx + 1 }
    let overlap_text :=
      if overlap < st.current_chunk.length then pySliceLast overlap st.current_chunk
      else st.current_chunk
    { st1 with
      current_chunk := overlap_text ++ para ++ nl2
      chunk_start_page := st.current_page }

/-- The body of the outer `for segment in segments` loop of `semantic_chunk`:
a page marker updates `current_page`; a text segment is split on blank lines
and folded through `processPara`. -/
def processSegment (max_chunk_size overlap : Nat) (st : ChunkState) (seg : Segment) :
    ChunkState :=
  match seg with
  | .marker n => { st with current_page := n }
  | .text s => (pySplitOn nl2 s).foldl (processPara max_chunk_size overlap) st

/-- `ingest_data.semantic_chunk(text, max_chunk_size=1000, overlap=150)`. -/
def semantic_chunk (text : PyStr) (max_chunk_size : Nat := 1000)
    (overlap : Nat := 150) : List Chunk :=
  let st := (scanSegments text).foldl (processSegment max_chunk_size overlap)
    ⟨[], [], 1, 1, 0⟩
  if (pyStrip st.current_chunk).isEmpty then st.chunks
  else st.chunks ++ [⟨pyStrip st.current_chunk, st.idx, st.chunk_start_page⟩]

/-- The stripped paragraphs contributed by a segment list, in processing
order (the values `para.strip()` ranges over inside `semantic_chunk`,
empty ones included). -/
def allParasSegs (segs : List Segment) : List PyStr :=
  segs.foldr
    (fun seg acc =>
      match seg with
      | .marker _ => acc
      | .text s => (pySplitOn nl2 s).map pyStrip ++ acc)
    []

/-- All stripped paragraphs of the input text. -/
def allParas (text : PyStr) : List PyStr := allParasSegs (scanSegments text)

/-- The page numbers of all `[PAGE_n]` markers occurring in the text. -/
def markerPages (text : PyStr) : List Nat :=
  (scanSegments text).filterMap fun seg =>
    match seg with
    | .marker n => some n
    | .text _ => none

/-!  ## MD5 (`hashlib.md5(...).hexdigest()`)  -/

/-- UTF-8 encoding of one character (Python `str.encode()`), as byte values. -/
def utf8Bytes (c : Char) : List Nat :=
  let n := c.toNat
  if n < 128 then [n]
  else if n < 2048 then [192 ||| (n >>> 6), 128 ||| (n &&& 63)]
  else if n < 65536 then
    [224 ||| (n >>> 12), 128 ||| ((n >>> 6) &&& 63), 128 ||| (n &&& 63)]
  else
    [240 ||| (n >>> 18), 128 ||| ((n >>> 12) &&& 63),
     128 ||| ((n >>> 6) &&& 63), 128 ||| (n &&& 63)]

/-- Python `s.encode()`: UTF-8 bytes of a string. -/
def utf8Encode (s : PyStr) : List Nat := (s.map utf8Bytes).flatten

/-- Left-rotation of a 32-bit word. -/
def rotl32 (x n : Nat) : Nat := ((x <<< n) ||| (x >>> (32 - n))) % 4294967296

/-- The 64 MD5 sine-derived constants `K[i] = floor(abs(sin(i+1)) * 2^32)`. -/
def md5K : List Nat :=
  [0xd76aa478, 0xe8c7b756, 0x242070db, 0xc1bdceee,
   0xf57c0faf, 0x4787c62a, 0xa8304613, 0xfd469501,
   0x698098d8, 0x8b44f7af, 0xffff5bb1, 0x895cd7be,
   0x6b901122, 0xfd987193, 0xa679438e, 0x49b40821,
   0xf61e2562, 0xc040b340, 0x265e5a51, 0xe9b6c7aa,
   0xd62f105d, 0x02441453, 0xd8a1e681, 0xe7d3fbc8,
   0x21e1cde6, 0xc33707d6, 0xf4d50d87, 0x455a14ed,
   0xa9e3e905, 0xfcefa3f8, 0x676f02d9, 0x8d2a4c8a,
   0xfffa3942, 0x8771f681, 0x6d9d6122, 0xfde5380c,
   0xa4beea44, 0x4bdecfa9, 0xf6bb4b60, 0xbebfbc70,
   0x289b7ec6, 0xeaa127fa, 0xd4ef3085, 0x04881d05,
   0xd9d4d039, 0xe6db99e5, 0x1fa27cf8, 0xc4ac5665,
   0xf4292244, 0x432aff97, 0xab9423a7, 0xfc93a039,
   0x655b59c3, 0x8f0ccc92, 0xffeff47d, 0x85845dd1,
   0x6fa87e4f, 0xfe2ce6e0, 0xa3014314, 0x4e0811a1,
   0xf7537e82, 0xbd3af235, 0x2ad7d2bb, 0xeb86d391]

/-- The 64 MD5 per-round left-rotation amounts. -/
def md5S : List Nat :=
  [7, 12, 17, 22, 7, 12, 17, 22, 7, 12, 17, 22, 7, 12, 17, 22,
   5, 9, 14, 20, 5, 9, 14, 20, 5, 9, 14, 20, 5, 9, 14, 20,
   4, 11, 16, 23, 4, 11, 16, 23, 4, 11, 16, 23, 4, 11, 16, 23,
   6, 10, 15, 21, 6, 10, 15, 21, 6, 10, 15, 21, 6, 10, 15, 21]

/-- Eight little-endian bytes of the 64-bit message bit length. -/
def md5LenBytes (bits : Nat) : List Nat :=
  (List.range 8).map fun i => (bits >>> (8 * i)) % 256

/-- MD5 padding: append `0x80`, zero bytes to 56 mod 64, then the bit length. -/
def md5Pad (msg : List Nat) : List Nat :=
  msg ++ [128] ++ List.replicate ((119 - msg.length % 64) % 64) 0
      ++ md5LenBytes ((8 * msg.length) % 18446744073709551616)

/-- The 16 little-endian 32-bit words of one 64-byte block. -/
def md5Words (block : List Nat) : List Nat :=
  (List.range 16).map fun j =>
    block.getD (4 * j) 0 + 256 * block.getD (4 * j + 1) 0
      + 65536 * block.getD (4 * j + 2) 0 + 16777216 * block.getD (4 * j + 3) 0

/-- One of the 64 MD5 rounds on the running `(A, B, C, D)` state. -/
def md5Step (M : List Nat) (st : Nat × Nat × Nat × Nat) (i : Nat) :
    Nat × Nat × Nat × Nat :=
  let (a, b, c, d) := st
  let mask := 4294967295
  let f := if i < 16 then (b &&& c) ||| ((b ^^^ mask) &&& d)
           else if i < 32 then (d &&& b) ||| ((d ^^^ mask) &&& c)
           else if i < 48 then b ^^^ c ^^^ d
           else c ^^^ (b ||| (d ^^^ mask))
  let g := if i < 16 then i
           else if i < 32 then (5 * i + 1) % 16
           else if i < 48 then (3 * i + 5) % 16
           else (7 * i) % 16
  let tmp := (a + f + md5K.getD i 0 + M.getD g 0) % 4294967296
  (d, (b + rotl32 tmp (md5S.getD i 0)) % 4294967296, b, c)

/-- Process one 64-byte block: run the 64 rounds and add back mod 2^32. -/
def md5Block (st : Nat × Nat × Nat × Nat) (block : List Nat) :
    Nat × Nat × Nat × Nat :=
  let M := md5Words block
  let (a, b, c, d) := (List.range 64).foldl (md5Step M) st
  ((st.1 + a) % 4294967296, (st.2.1 + b) % 4294967296,
   (st.2.2.1 + c) % 4294967296, (st.2.2.2 + d) % 4294967296)

/-- Fuel-driven fold of `md5Block` over consecutive 64-byte blocks. -/
def md5Blocks : Nat → (Nat × Nat × Nat × Nat) → List Nat → Nat × Nat × Nat × Nat
  | 0, st, _ => st
  | _, st, [] => st
  | fuel + 1, st, bytes => md5Blocks fuel (md5Block st (bytes.take 64)) (bytes.drop 64)

/-- Lowercase hexadecimal digit. -/
def hexDigitChar (n : Nat) : Char :=
  if n < 10 then Char.ofNat (48 + n) else Char.ofNat (87 + n)

/-- Two lowercase hex digits of one byte. -/
def byteHex (b : Nat) : PyStr := [hexDigitChar (b / 16), hexDigitChar (b % 16)]

/-- Hex of a 32-bit word, bytes in little-endian order (MD5 digest order). -/
def wordHexLE (w : Nat) : PyStr :=
  ((List.range 4).map fun i => byteHex ((w >>> (8 * i)) % 256)).flatten

/-- `hashlib.md5(s.encode()).hexdigest()`. -/
def md5hex (s : PyStr) : PyStr :=
  let msg := md5Pad (utf8Encode s)
  let st := md5Blocks (msg.length / 64 + 1)
    (0x67452301, 0xefcdab89, 0x98badcfe, 0x10325476) msg
  wordHexLE st.1 ++ wordHexLE st.2.1 ++ wordHexLE st.2.2.1 ++ wordHexLE st.2.2.2

/-!  ## Metadata enrichment (`ingest_data.build_metadata`)  -/

/-- Python `str.lower()` (ASCII case mapping, which covers the patterns and
topics used by the pipeline). -/
def pyLower (s : PyStr) : PyStr := s.map Char.toLower

/-- `topic.lower().replace(" ", "_")` — the topic normalization shared by
ingestion and the tools. -/
def pyNormalizeTopic (t : PyStr) : PyStr :=
  (pyLower t).map fun c => if c = ' ' then '_' else c

/-- Substring occurrence test (any position, including the empty needle). -/
def isSubstring (needle : PyStr) : PyStr → Bool
  | [] => needle.isEmpty
  | c :: rest => needle.isPrefixOf (c :: rest) || isSubstring needle rest

/-- `re.search` for a literal pattern: substring containment. -/
def containsTok (needle s : PyStr) : Bool := isSubstring needle s

/-- `re.search` for `needle` followed by `\d+`: some occurrence of the
literal immediately followed by a decimal digit. -/
def searchTokDigit (needle : PyStr) : PyStr → Bool
  | [] => false
  | c :: rest =>
    (needle.isPrefixOf (c :: rest) &&
      (((c :: rest).drop needle.length).headD ' ').isDigit) ||
    searchTokDigit needle rest

/-- `re.search` for `tok₁.*tok₂`: an occurrence of `tok₁` followed, with no
intervening newline (`.` does not match `\n`), by an occurrence of `tok₂`. -/
def searchTokThenTok (tok₁ tok₂ : PyStr) : PyStr → Bool
  | [] => false
  | c :: rest =>
    (tok₁.isPrefixOf (c :: rest) &&
      isSubstring tok₂ (((c :: rest).drop tok₁.length).takeWhile (· ≠ '\n'))) ||
    searchTokThenTok tok₁ tok₂ rest

/-- `re.search` for `needle` followed by one character of a class (used for
`first[,\s]` etc.). -/
def searchTokClass (needle : PyStr) (cls : Char → Bool) : PyStr → Bool
  | [] => false
  | c :: rest =>
    (needle.isPrefixOf (c :: rest) &&
      (match (c :: rest).drop needle.length with
       | d :: _ => cls d
       | [] => false)) ||
    searchTokClass needle cls rest

/-- The priority-ordered content-type classifier of `build_metadata`:
`re.search(r'exercise|problem|question \d+|quiz|task \d+', text, re.I)` →
practice; else the prerequisite patterns → prerequisites; else explanation.
Case-insensitivity is modelled by lowering the text first. -/
def detect_content_type (chunk_text : PyStr) : PyStr :=
  let t := pyLower chunk_text
  if containsTok "exercise".data t || containsTok "problem".data t ||
     searchTokDigit "question ".data t || containsTok "quiz".data t ||
     searchTokDigit "task ".data t then
    "practice".data
  else if containsTok "prerequisite".data t ||
     searchTokThenTok "before".data "study".data t ||
     containsTok "prior knowledge".data t ||
     searchTokThenTok "required".data "understand".data t then
    "prerequisites".data
  else
    "explanation".data

/-- `str(bool(...))` for the three feature flags. -/
def pyStrOfBool (b : Bool) : PyStr := if b then "True".data else "False".data

/-- `re.search(r'for example|e\.g\.|such as|consider', text, re.I)`. -/
def hasExamplesFlag (chunk_text : PyStr) : Bool :=
  let t := pyLower chunk_text
  containsTok "for example".data t || containsTok "e.g.".data t ||
    containsTok "such as".data t || containsTok "consider".data t

/-- `re.search(r'is defined as|refers to|means that|is called', text, re.I)`. -/
def hasDefinitionsFlag (chunk_text : PyStr) : Bool :=
  let t := pyLower chunk_text
  containsTok "is defined as".data t || containsTok "refers to".data t ||
    containsTok "means that".data t || containsTok "is called".data t

/-- `re.search(r'step \d+|first[,\s]|second[,\s]|finally[,\s]', text, re.I)`. -/
def hasStepsFlag (chunk_text : PyStr) : Bool :=
  let t := pyLower chunk_text
  let cls := fun c => c = ',' || isPyWhitespace c
  searchTokDigit "step ".data t || searchTokClass "first".data cls t ||
    searchTokClass "second".data cls t || searchTokClass "finally".data cls t

/-- `os.path.basename` for POSIX paths: the part after the last slash. -/
def pyBasename (p : PyStr) : PyStr := (pySplitOn ['/'] p).getLastD p

/-- Python `str(n)` for a non-negative integer. -/
def natStr (n : Nat) : PyStr := (toString n).data

/-- The metadata dict returned by `build_metadata` (all values are strings,
as in the source). -/
structure Metadata where
  topic : PyStr
  difficulty : PyStr
  content_type : PyStr
  source_file : PyStr
  chunk_index : PyStr
  start_page : PyStr
  char_count : PyStr
  last_updated : PyStr
  doc_id : PyStr
  has_examples : PyStr
  has_definitions : PyStr
  has_steps : PyStr
deriving Repr, DecidableEq

/-- `ingest_data.build_metadata(chunk_text, chunk_index, start_page,
source_file, topic, difficulty)`; the ingestion timestamp
`datetime.now().isoformat()` is passed in as `now`. -/
def build_metadata (chunk_text : PyStr) (chunk_index : Nat) (start_page : Nat)
    (source_file topic difficulty : PyStr) (now : PyStr) : Metadata :=
  { topic := pyNormalizeTopic topic
    difficulty := difficulty
    content_type := detect_content_type chunk_text
    source_file := pyBasename source_file
    chunk_index := natStr chunk_index
    start_page := natStr start_page
    char_count := natStr chunk_text.length
    last_updated := now
    doc_id := md5hex (source_file ++ ['_'] ++ natStr chunk_index ++ ['_']
      ++ pyTake 60 chunk_text)
    has_examples := pyStrOfBool (hasExamplesFlag chunk_text)
    has_definitions := pyStrOfBool (hasDefinitionsFlag chunk_text)
    has_steps := pyStrOfBool (hasStepsFlag chunk_text) }

/-- A chunk after metadata enrichment (`chunk['metadata'] = build_metadata(...)`). -/
structure EnrichedChunk where
  text : PyStr
  chunk_index : Nat
  start_page : Nat
  metadata : Metadata
deriving Repr

/-- The persistent ChromaDB collection contents after `collection.add`. -/
structure StoredCollection where
  name : PyStr
  documents : List PyStr
  metadatas : List Metadata
  embeddings : List (List ℚ)
  ids : List PyStr
deriving Repr

/-- `ingest_data.store_in_chromadb(chunks, embeddings, collection_name)`:
documents are the chunk texts, metadatas the metadata dicts, and the ids are
the metadata `doc_id` values. -/
def store_in_chromadb (chunks : List EnrichedChunk) (embeddings : List (List ℚ))
    (collection_name : PyStr := "learning_companion_kb".data) : StoredCollection :=
  { name := collection_name
    documents := chunks.map (·.text)
    metadatas := chunks.map (·.metadata)
    embeddings := embeddings
    ids := chunks.map fun c => c.metadata.doc_id }

/-!  ## SQLite store (`tools.py`)

The two tables created by `_init_db`: `student_progress` keyed by
`(student_id, topic)` and the append-only `study_sessions` log keyed by
`session_id`.  A fallible write returns `Option`: `tools.py` commits once,
after both writes, so a failing call leaves the committed state untouched. -/

/-- One `student_progress` row (`last_studied` is a nullable TEXT column). -/
structure ProgressRow where
  mastery_score : ℚ
  attempts : Nat
  last_studied : Option PyStr
deriving Repr, DecidableEq

/-- One `study_sessions` row. -/
structure SessionRow where
  session_id : PyStr
  student_id : PyStr
  topic : PyStr
  score : ℚ
  timestamp : PyStr
deriving Repr, DecidableEq

/-- The SQLite database state. -/
structure DB where
  student_progress : PyStr × PyStr → Option ProgressRow
  study_sessions : List SessionRow

/-- The freshly initialised database. -/
def emptyDB : DB := ⟨fun _ => none, []⟩

/-- `session_id = f"{student_id}_{topic_key}_{now}"`. -/
def mkSessionId (student_id topic_key now : PyStr) : PyStr :=
  student_id ++ ['_'] ++ topic_key ++ ['_'] ++ now

/-- The body of `tools.update_student_progress` (after argument validation):
read the existing row, upsert the running-average mastery, then insert one
`study_sessions` row; the `PRIMARY KEY` constraint on `session_id` makes the
insert fail when the id already exists.  Both writes commit as one
transaction (`conn.commit()` runs once, after both), so failure yields `none`
and no observable change.  Returns the new database together with the
`new_mastery` and `new_attempts` locals used in the confirmation message. -/
def update_student_progress (db : DB) (student_id topic : PyStr) (score : ℚ)
    (now : PyStr) : Option (DB × ℚ × Nat) :=
  let topic_key := pyNormalizeTopic topic
  let session_id := mkSessionId student_id topic_key now
  let upserted : (PyStr × PyStr → Option ProgressRow) × ℚ × Nat :=
    match db.student_progress (student_id, topic_key) with
    | some r =>
      ((fun k => if k = (student_id, topic_key) then
          some ⟨(r.mastery_score * r.attempts + score) / (r.attempts + 1),
                r.attempts + 1, some now⟩
        else db.student_progress k),
       (r.mastery_score * r.attempts + score) / (r.attempts + 1), r.attempts + 1)
    | none =>
      ((fun k => if k = (student_id, topic_key) then some ⟨score, 1, some now⟩
        else db.student_progress k),
       score, 1)
  if db.study_sessions.any (fun s => s.session_id == session_id) then none
  else
    some (({ student_progress := upserted.1,
             study_sessions :=
               db.study_sessions ++ [⟨session_id, student_id, topic_key, score, now⟩] } : DB),
          upserted.2.1, upserted.2.2)

/-- The confirmation data reported by the tool on success. -/
structure UpdateResult where
  latest_score : ℚ
  new_mastery : ℚ
  new_attempts : Nat
  status : PyStr
deriving Repr, DecidableEq

/-- The Pydantic schema `UpdateStudentProgressInput`:
`score: float = Field(ge=0.0, le=1.0)` accepts exactly the scores in `[0, 1]`. -/
def validUpdateScore (score : ℚ) : Bool :=
  decide (0 ≤ score) && decide (score ≤ 1)

/-- The `update_student_progress` tool at its boundary: the Pydantic schema
rejects out-of-range scores before the function body runs, so a rejected call
touches neither table; a failed write also leaves the state unchanged. -/
def update_student_progress_tool (db : DB) (student_id topic : PyStr) (score : ℚ)
    (now : PyStr) : DB × Option UpdateResult :=
  if validUpdateScore score then
    match update_student_progress db student_id topic score now with
    | none => (db, none)
    | some (db', new_mastery, new_attempts) =>
      (db', some ⟨score, new_mastery, new_attempts,
        if 7/10 ≤ new_mastery then "✓ Mastery achieved!".data
        else "⟳ Needs more practice.".data⟩)
  else (db, none)

/-- The two return shapes of `tools.get_student_progress`: the synthesized
new-topic message when no row exists, and the mastery report otherwise. -/
inductive ProgressReport where
  | noRecord (message : PyStr)
  | record (mastery : ℚ) (attempts : Nat) (last_studied_display : PyStr)
      (status : PyStr)
deriving Repr, DecidableEq

/-- `tools.get_student_progress(student_id, topic)`: a point read on the
normalized key; absence produces the literal new-topic message, presence a
report whose status is `needs review` for mastery < 0.7, else `proficient`,
and whose last-studied display is `last_studied or 'never'`. -/
def get_student_progress (db : DB) (student_id topic : PyStr) : ProgressReport :=
  match db.student_progress (student_id, pyNormalizeTopic topic) with
  | none =>
    .noRecord ("No progress record found for student \x27".data ++ student_id
      ++ "\x27 on topic \x27".data ++ topic
      ++ "\x27. This is likely a new topic for them. Mastery: 0.0, Attempts: 0.".data)
  | some r =>
    .record r.mastery_score r.attempts
      (match r.last_studied with
       | none => "never".data
       | some s => if s.isEmpty then "never".data else s)
      (if r.mastery_score < 7/10 then "needs review".data else "proficient".data)

/-- `get_student_progress` as a state-passing operation: it only reads. -/
def get_student_progress_op (db : DB) (student_id topic : PyStr) :
    DB × ProgressReport :=
  (db, get_student_progress db student_id topic)

/-!  ## Content retrieval (`tools.retrieve_content`)

The vector store is opaque; for a fixed query embedding it is modelled by
`ranked`, the collection's entries in ascending-distance order.  A ChromaDB
query with an `$and`-of-`$eq` `where` filter returns the best `n` entries
among those matching the filter; without a filter, the best `n` overall. -/

/-- One stored collection entry as seen by `collection.query`. -/
structure ChromaEntry where
  document : PyStr
  metadata : Metadata
deriving Repr, DecidableEq

/-- Metadata field lookup for `where` filters. -/
def metaGet (m : Metadata) (field : PyStr) : Option PyStr :=
  if field = "topic".data then some m.topic
  else if field = "content_type".data then some m.content_type
  else if field = "difficulty".data then some m.difficulty
  else if field = "source_file".data then some m.source_file
  else if field = "start_page".data then some m.start_page
  else none

/-- `{"$and": [{f₁: {"$eq": v₁}}, ...]}`: every condition holds exactly. -/
def matchesAnd (conds : List (PyStr × PyStr)) (m : Metadata) : Bool :=
  conds.all fun cv => metaGet m cv.1 == some cv.2

/-- `collection.query(query_embeddings=[e], n_results=n, where=filt)` against
the ranking  `ranked` induced by the embedding `e`. -/
def chromaQuery (ranked : List ChromaEntry) (n : Nat)
    (filt : Option (List (PyStr × PyStr))) : List ChromaEntry :=
  match filt with
  | some conds => (ranked.filter fun e => matchesAnd conds e.metadata).take n
  | none => ranked.take n

/-- `f"[Result {i} | Source: {source}, Page {page}]\n{doc}"`. -/
def formatResultEntry (i : Nat) (e : ChromaEntry) : PyStr :=
  "[Result ".data ++ natStr i ++ " | Source: ".data ++ e.metadata.source_file
    ++ ", Page ".data ++ e.metadata.start_page ++ "]\n".data ++ e.document

/-- `"\n\n---\n\n".join(parts)`. -/
def joinWithSep (sep : PyStr) : List PyStr → PyStr
  | [] => []
  | [s] => s
  | s :: rest => s ++ sep ++ joinWithSep sep rest

/-- The result formatting loop of `retrieve_content` (`enumerate(..., start=1)`). -/
def formatResults (es : List ChromaEntry) : PyStr :=
  joinWithSep "\n\n---\n\n".data (es.enum.map fun ie => formatResultEntry (ie.1 + 1) ie.2)

/-- The literal no-content message of `retrieve_content`. -/
def noContentMessage (topic content_type difficulty : PyStr) : PyStr :=
  "No content found for topic=\x27".data ++ topic ++ "\x27, type=\x27".data
    ++ content_type ++ "\x27, difficulty=\x27".data ++ difficulty ++ "\x27.".data

/-- `tools.retrieve_content(topic, content_type, difficulty, n_results=3)`:
query with the exact `$and` filter on normalized topic, content type and
difficulty; on zero documents re-query unfiltered with the same embedding
(the same `ranked` order); if still empty return the no-content message. -/
def retrieve_content (ranked : List ChromaEntry)
    (topic content_type difficulty : PyStr) (n_results : Nat := 3) : PyStr :=
  let whereFilter := [("topic".data, pyNormalizeTopic topic),
                      ("content_type".data, content_type),
                      ("difficulty".data, difficulty)]
  let results := chromaQuery ranked n_results (some whereFilter)
  let results := if results.isEmpty then chromaQuery ranked n_results none
                 else results
  if results.isEmpty then noContentMessage topic content_type difficulty
  else formatResults results

/-!  ## Agent graph (`graph.py`)  -/

/-- One tool request attached to an assistant message. -/
structure ToolCall where
  name : PyStr
  args : List (PyStr × PyStr)
  call_id : PyStr
deriving Repr, DecidableEq

/-- A LangChain message; only AI messages carry the `tool_calls` attribute. -/
inductive Message where
  | system (content : PyStr)
  | human (content : PyStr)
  | ai (content : PyStr) (tool_calls : List ToolCall)
  | tool (content : PyStr) (tool_call_id : PyStr)
deriving Repr, DecidableEq

/-- LangGraph's `END` sentinel. -/
def END : PyStr := "__end__".data

/-- `hasattr(last_message, "tool_calls")`. -/
def hasToolCallsAttr : Message → Bool
  | .ai _ _ => true
  | _ => false

/-- The `tool_calls` attribute (empty where the attribute is missing). -/
def toolCallsOf : Message → List ToolCall
  | .ai _ tcs => tcs
  | _ => []

/-- `graph.router(state)`: inspect `state["messages"][-1]`; route to
`"tools"` when it has a non-empty `tool_calls`, else to `END`.  Python raises
`IndexError` on an empty message list, modelled by `none`. -/
def router (messages : List Message) : Option PyStr :=
  match messages.getLast? with
  | none => none
  | some m =>
    some (if hasToolCallsAttr m && !(toolCallsOf m).isEmpty then "tools".data
          else END)

/-- The wiring set up by `graph.build_graph`. -/
structure GraphSpec where
  nodes : List PyStr
  entry_point : PyStr
  conditional_source : PyStr
  path_map : List (PyStr × PyStr)
  edges : List (PyStr × PyStr)
deriving Repr

/-- `graph.build_graph()`: nodes `agent` and `tools`, entry point `agent`,
conditional edges from `agent` through `router` with path map
`{"tools": "tools", END: END}`, and the unconditional edge `tools → agent`. -/
def build_graph : GraphSpec :=
  { nodes := ["agent".data, "tools".data]
    entry_point := "agent".data
    conditional_source := "agent".data
    path_map := [("tools".data, "tools".data), (END, END)]
    edges := [("tools".data, "agent".data)] }

/-- Association-list lookup used for the `path_map`. -/
def lookupPath (pm : List (PyStr × PyStr)) (k : PyStr) : Option PyStr :=
  match pm with
  | [] => none
  | (a, b) :: rest => if a = k then some b else lookupPath rest k

/-!  ## Observations and runs used by the statements  -/

/-- Attempts stored for `(student_id, normalized topic)` (0 when absent). -/
def attemptsOf (db : DB) (student_id topic : PyStr) : Nat :=
  match db.student_progress (student_id, pyNormalizeTopic topic) with
  | some r => r.attempts
  | none => 0

/-- Mastery stored for `(student_id, normalized topic)` (0 when absent). -/
def masteryOf (db : DB) (student_id topic : PyStr) : ℚ :=
  match db.student_progress (student_id, pyNormalizeTopic topic) with
  | some r => r.mastery_score
  | none => 0

/-- `mastery_score * attempts` for a key — the quantity the running-average
update adds each submitted score to. -/
def masteryTimesAttempts (db : DB) (student_id topic : PyStr) : ℚ :=
  match db.student_progress (student_id, pyNormalizeTopic topic) with
  | some r => r.mastery_score * r.attempts
  | none => 0

/-- Attempts stored at a raw table key (0 when absent). -/
def attemptsAtKey (db : DB) (key : PyStr × PyStr) : Nat :=
  match db.student_progress key with
  | some r => r.attempts
  | none => 0

/-- Number of `study_sessions` rows for a raw `(student_id, topic)` key. -/
def sessionCountAtKey (db : DB) (key : PyStr × PyStr) : Nat :=
  (db.study_sessions.filter fun s => s.student_id == key.1 && s.topic == key.2).length

/-- The cross-table invariant of the mastery store: for every key, the
`attempts` field equals the number of `study_sessions` rows for that key. -/
def progressSessionsAgree (db : DB) : Prop :=
  ∀ key, attemptsAtKey db key = sessionCountAtKey db key

/-- Submit a sequence of `(score, timestamp)` pairs for one student and topic
through the `update_student_progress` tool. -/
def runUpdates (db : DB) (student_id topic : PyStr) : List (ℚ × PyStr) → DB
  | [] => db
  | (s, t) :: rest =>
    runUpdates (update_student_progress_tool db student_id topic s t).1
      student_id topic rest

/-- One call to the `update_student_progress` tool. -/
structure UpdateCall where
  student_id : PyStr
  topic : PyStr
  score : ℚ
  now : PyStr

/-- Run a sequence of tool calls (failed ones leave the state unchanged). -/
def runCalls (db : DB) : List UpdateCall → DB
  | [] => db
  | c :: rest =>
    runCalls (update_student_progress_tool db c.student_id c.topic c.score c.now).1 rest

/-- Concrete chunker input refuting the size-cap claim: a 300-character
paragraph followed by a 900-character paragraph (both well under 1000). -/
def chunkCexText : PyStr := List.replicate 300 'a' ++ nl2 ++ List.replicate 900 'b'

/-- Concrete two-page chunker input: page 1 holds one 1200-character
paragraph, page 2 one 50-character paragraph (the spec's own scenario). -/
def pageCexText : PyStr :=
  "[PAGE_1]\n".data ++ List.replicate 1200 'a'
    ++ "\n\n[PAGE_2]\n".data ++ List.replicate 50 'b'

/-- A second two-page input (1100 + 40 characters) used to exhibit the actual
page-tagging rule. -/
def pageScenarioText : PyStr :=
  "[PAGE_1]\n".data ++ List.replicate 1100 'c'
    ++ "\n\n[PAGE_2]\n".data ++ List.replicate 40 'd'

/-!  ## Claims  -/

/-- C4: `build_metadata` produces `doc_id` equal to the MD5 hex digest of
`f"{source_file}_{chunk_index}_{chunk_text[:60]}"`; the id is a deterministic
function of exactly those three inputs — independent of topic, difficulty and
ingestion timestamp — and `store_in_chromadb` stores each chunk under its
metadata `doc_id`. -/
theorem C4_doc_id_is_md5_of_three_inputs :
    (∀ chunk_text chunk_index start_page source_file topic difficulty now,
      (build_metadata chunk_text chunk_index start_page source_file topic
          difficulty now).doc_id
        = md5hex (source_file ++ ['_'] ++ natStr chunk_index ++ ['_']
            ++ pyTake 60 chunk_text)) ∧
    (∀ chunk_text chunk_index start_page start_page' source_file topic topic'
        difficulty difficulty' now now',
      (build_metadata chunk_text chunk_index start_page source_file topic
          difficulty now).doc_id
        = (build_metadata chunk_text chunk_index start_page' source_file topic'
            difficulty' now').doc_id) ∧
    (∀ chunks embeddings name,
      (store_in_chromadb chunks embeddings name).ids
        = chunks.map fun c => c.metadata.doc_id) :=
  ⟨fun _ _ _ _ _ _ _ => rfl, fun _ _ _ _ _ _ _ _ _ _ _ => rfl, fun _ _ _ => rfl⟩

/-- C10: `get_student_progress` never modifies either store: both the
`student_progress` table and the `study_sessions` table are exactly as before
the call. -/
theorem C10_get_progress_reads_only :
    ∀ db student_id topic,
      (get_student_progress_op db student_id topic).1.student_progress
          = db.student_progress ∧
      (get_student_progress_op db student_id topic).1.study_sessions
          = db.study_sessions :=
  fun _ _ _ => ⟨rfl, rfl⟩

/-- C8: with no row for the normalized key, `get_student_progress` returns
(rather than raising) the new-topic message reporting mastery 0.0 and
attempts 0; with a row it reports the stored mastery, attempts and
last-studied display (`'never'` for a missing date), classified
`needs review` for mastery < 0.7 and `proficient` otherwise. -/
theorem C8_get_progress_reports :
    ∀ db student_id topic,
      (db.student_progress (student_id, pyNormalizeTopic topic) = none →
        get_student_progress db student_id topic =
          .noRecord ("No progress record found for student \x27".data ++ student_id
            ++ "\x27 on topic \x27".data ++ topic
            ++ "\x27. This is likely a new topic for them. Mastery: 0.0, Attempts: 0.".data)) ∧
      (∀ r, db.student_progress (student_id, pyNormalizeTopic topic) = some r →
        get_student_progress db student_id topic =
          .record r.mastery_score r.attempts
            (match r.last_studied with
             | none => "never".data
             | some s => if s.isEmpty then "never".data else s)
            (if r.mastery_score < 7/10 then "needs review".data
             else "proficient".data)) := by
  intro db student_id topic
  constructor
  · intro h
    unfold get_student_progress
    rw [h]
  · intro r h
    unfold get_student_progress
    rw [h]

/-- C8 witness: the unseen-topic scenario on the fresh database, and a
populated row classified by the 0.7 threshold. -/
theorem C8_get_progress_reports_witness :
    get_student_progress emptyDB "s1".data "unseen_topic".data =
      .noRecord ("No progress record found for student \x27".data ++ "s1".data
        ++ "\x27 on topic \x27".data ++ "unseen_topic".data
        ++ "\x27. This is likely a new topic for them. Mastery: 0.0, Attempts: 0.".data) :=
  (C8_get_progress_reports emptyDB "s1".data "unseen_topic".data).1 rfl

/-- C7: the tool-boundary schema accepts scores 0.0 and 1.0, rejects exactly
the scores outside `[0, 1]`, and a rejected call returns with the database
untouched (no read or write on either store). -/
theorem C7_score_validation_boundary :
    validUpdateScore 0 = true ∧ validUpdateScore 1 = true ∧
    (∀ score : ℚ, validUpdateScore score = false ↔ score < 0 ∨ 1 < score) ∧
    (∀ (db : DB) score student_id topic now, validUpdateScore score = false →
      update_student_progress_tool db student_id topic score now = (db, none)) := by
  refine ⟨by decide, by decide, ?_, ?_⟩
  · intro score
    simp only [validUpdateScore, Bool.and_eq_false_iff, decide_eq_false_iff_not,
      not_le]
  · intro db score student_id topic now h
    unfold update_student_progress_tool
    rw [h]
    simp

/-- C7 witness: 1.5 and -0.1 are rejected and leave the fresh database
unchanged. -/
theorem C7_score_validation_boundary_witness :
    update_student_progress_tool emptyDB "s1".data "algebra".data (3/2) "t".data
        = (emptyDB, none) ∧
    update_student_progress_tool emptyDB "s1".data "algebra".data (-1/10) "t".data
        = (emptyDB, none) :=
  ⟨C7_score_validation_boundary.2.2.2 emptyDB (3/2) "s1".data "algebra".data
      "t".data (by norm_num [validUpdateScore]),
   C7_score_validation_boundary.2.2.2 emptyDB (-1/10) "s1".data "algebra".data
      "t".data (by norm_num [validUpdateScore])⟩

/-- C2: the router sends a state to `"tools"` exactly when its last message
carries at least one tool call and to `END` exactly when it carries none;
the graph maps those router outputs to the tool node and to termination
respectively, and the tool node has the single unconditional edge back to
the agent node. -/
theorem C2_router_exactness :
    (∀ (pre : List Message) (m : Message),
      (router (pre ++ [m]) = some "tools".data ↔
        hasToolCallsAttr m = true ∧ toolCallsOf m ≠ []) ∧
      (router (pre ++ [m]) = some END ↔
        ¬(hasToolCallsAttr m = true ∧ toolCallsOf m ≠ []))) ∧
    lookupPath build_graph.path_map "tools".data = some "tools".data ∧
    lookupPath build_graph.path_map END = some END ∧
    build_graph.edges = [("tools".data, "agent".data)] ∧
    build_graph.entry_point = "agent".data := by
  refine ⟨?_, by decide, by decide, rfl, rfl⟩
  intro pre m
  have hlast : (pre ++ [m]).getLast? = some m := List.getLast?_concat _
  have hne : "tools".data ≠ END := by decide
  simp only [router, hlast]
  by_cases hm : hasToolCallsAttr m = true ∧ toolCallsOf m ≠ []
  · have hcond : (hasToolCallsAttr m && !(toolCallsOf m).isEmpty) = true := by
      rw [hm.1]
      simpa using hm.2
    rw [hcond]
    simp [hm, hne]
  · have hcond : (hasToolCallsAttr m && !(toolCallsOf m).isEmpty) = false := by
      rcases not_and_or.mp hm with h | h
      · simp [Bool.eq_false_iff.mpr h]
      · simp [not_not.mp (by simpa using h)]
    rw [hcond]
    simp [hm, hne.symm]

/-- C9: `retrieve_content` first queries with the exact conjunction filter
(normalized topic AND content type AND difficulty); on zero documents it
re-queries unfiltered against the same ranking (same query embedding), and if
even that is empty it returns the no-content message instead of raising. -/
theorem C9_retrieve_filter_then_fallback :
    ∀ ranked topic content_type difficulty n,
      retrieve_content ranked topic content_type difficulty n =
        (let filtered := (ranked.filter fun e =>
            e.metadata.topic == pyNormalizeTopic topic &&
            (e.metadata.content_type == content_type &&
             e.metadata.difficulty == difficulty)).take n
         if filtered ≠ [] then formatResults filtered
         else if ranked.take n ≠ [] then formatResults (ranked.take n)
         else noContentMessage topic content_type difficulty) := by
  intro ranked topic ct diff n
  have hm : ∀ e : ChromaEntry,
      matchesAnd [("topic".data, pyNormalizeTopic topic),
        ("content_type".data, ct), ("difficulty".data, diff)] e.metadata
        = (e.metadata.topic == pyNormalizeTopic topic &&
           (e.metadata.content_type == ct && e.metadata.difficulty == diff)) := by
    intro e
    simp [matchesAnd, metaGet]
  have hfil : (ranked.filter fun e =>
        matchesAnd [("topic".data, pyNormalizeTopic topic),
          ("content_type".data, ct), ("difficulty".data, diff)] e.metadata)
      = ranked.filter (fun e =>
          e.metadata.topic == pyNormalizeTopic topic &&
          (e.metadata.content_type == ct && e.metadata.difficulty == diff)) :=
    List.filter_congr fun e _ => hm e
  simp only [retrieve_content, chromaQuery, hfil]
  by_cases h1 : (ranked.filter (fun e =>
      e.metadata.topic == pyNormalizeTopic topic &&
      (e.metadata.content_type == ct && e.metadata.difficulty == diff))).take n = []
  · rw [h1]
    by_cases h2 : ranked.take n = []
    · simp [h2]
    · simp [h2, List.isEmpty_iff]
  · simp [h1, List.isEmpty_iff]

/-- `session_id = f"{student_id}_{topic_key}_{now}"` determines `now` for a
fixed student and topic key. -/
theorem mkSessionId_inj (a b t t' : PyStr)
    (h : mkSessionId a b t = mkSessionId a b t') : t = t' := by
  unfold mkSessionId at h
  exact List.append_cancel_left h

/-- A call of the `update_student_progress` tool with a valid score and a
fresh session id succeeds and performs exactly the two writes: the running
average upsert at the normalized key and the appended session row. -/
theorem tool_step_success (db : DB) (student_id topic : PyStr) (score : ℚ)
    (now : PyStr) (hscore : 0 ≤ score ∧ score ≤ 1)
    (hfree : ∀ s ∈ db.study_sessions,
      s.session_id ≠ mkSessionId student_id (pyNormalizeTopic topic) now) :
    (update_student_progress_tool db student_id topic score now).1.student_progress
        (student_id, pyNormalizeTopic topic)
      = some (match db.student_progress (student_id, pyNormalizeTopic topic) with
          | some r => ⟨(r.mastery_score * r.attempts + score) / (r.attempts + 1),
              r.attempts + 1, some now⟩
          | none => ⟨score, 1, some now⟩) ∧
    (∀ k, k ≠ (student_id, pyNormalizeTopic topic) →
      (update_student_progress_tool db student_id topic score now).1.student_progress k
        = db.student_progress k) ∧
    (update_student_progress_tool db student_id topic score now).1.study_sessions
      = db.study_sessions
        ++ [⟨mkSessionId student_id (pyNormalizeTopic topic) now, student_id,
             pyNormalizeTopic topic, score, now⟩] := by
  have hvalid : validUpdateScore score = true := by
    rw [validUpdateScore]
    simp [hscore.1, hscore.2]
  have hany : (db.study_sessions.any fun s =>
      s.session_id == mkSessionId student_id (pyNormalizeTopic topic) now) = false := by
    rw [List.any_eq_false]
    intro s hs
    simp [hfree s hs]
  cases hrow : db.student_progress (student_id, pyNormalizeTopic topic) with
  | none =>
    simp only [update_student_progress_tool, update_student_progress, hvalid,
      if_true, hrow, hany, Bool.false_eq_true, if_false]
    refine ⟨by simp, fun k hk => by simp [hk], trivial⟩
  | some r =>
    simp only [update_student_progress_tool, update_student_progress, hvalid,
      if_true, hrow, hany, Bool.false_eq_true, if_false]
    refine ⟨by simp, fun k hk => by simp [hk], trivial⟩

/-- Folding valid, fresh submissions through the tool adds one attempt and
adds each score to `mastery_score * attempts`, per submission. -/
theorem runUpdates_accumulates (student_id topic : PyStr) :
    ∀ (subs : List (ℚ × PyStr)) (db : DB),
      (∀ p ∈ subs, 0 ≤ p.1 ∧ p.1 ≤ 1) →
      (subs.map Prod.snd).Nodup →
      (∀ p ∈ subs, ∀ s ∈ db.study_sessions,
        s.session_id ≠ mkSessionId student_id (pyNormalizeTopic topic) p.2) →
      attemptsOf (runUpdates db student_id topic subs) student_id topic
          = attemptsOf db student_id topic + subs.length ∧
      masteryTimesAttempts (runUpdates db student_id topic subs) student_id topic
          = masteryTimesAttempts db student_id topic + (subs.map Prod.fst).sum := by
  intro subs
  induction subs with
  | nil => intro db _ _ _; simp [runUpdates]
  | cons p rest ih =>
    obtain ⟨sc, t⟩ := p
    intro db hb hnd hfresh
    have hstep := tool_step_success db student_id topic sc t
      (hb (sc, t) (List.mem_cons_self _ _))
      (fun s hs => hfresh (sc, t) (List.mem_cons_self _ _) s hs)
    have hndt : t ∉ rest.map Prod.snd ∧ (rest.map Prod.snd).Nodup := by
      rw [List.map_cons, List.nodup_cons] at hnd
      exact hnd
    have hrun : runUpdates db student_id topic ((sc, t) :: rest)
        = runUpdates (update_student_progress_tool db student_id topic sc t).1
            student_id topic rest := rfl
    have hfresh' : ∀ q ∈ rest,
        ∀ s ∈ (update_student_progress_tool db student_id topic sc t).1.study_sessions,
        s.session_id ≠ mkSessionId student_id (pyNormalizeTopic topic) q.2 := by
      intro q hq s hs
      rw [hstep.2.2] at hs
      rcases List.mem_append.mp hs with hs | hs
      · exact hfresh q (List.mem_cons_of_mem _ hq) s hs
      · have hseq : s = ⟨mkSessionId student_id (pyNormalizeTopic topic) t,
            student_id, pyNormalizeTopic topic, sc, t⟩ := by simpa using hs
        intro hcontra
        rw [hseq] at hcontra
        have ht : t = q.2 := mkSessionId_inj _ _ _ _ hcontra
        exact hndt.1 (ht ▸ List.mem_map_of_mem Prod.snd hq)
    have htail := ih (update_student_progress_tool db student_id topic sc t).1
      (fun q hq => hb q (List.mem_cons_of_mem _ hq)) hndt.2 hfresh'
    have hatt : attemptsOf (update_student_progress_tool db student_id topic sc t).1
        student_id topic = attemptsOf db student_id topic + 1 := by
      unfold attemptsOf
      rw [hstep.1]
      cases hrow : db.student_progress (student_id, pyNormalizeTopic topic) with
      | none => simp
      | some r => simp
    have hmta : masteryTimesAttempts
          (update_student_progress_tool db student_id topic sc t).1 student_id topic
        = masteryTimesAttempts db student_id topic + sc := by
      unfold masteryTimesAttempts
      rw [hstep.1]
      cases hrow : db.student_progress (student_id, pyNormalizeTopic topic) with
      | none => simp
      | some r =>
        show ((r.mastery_score * r.attempts + sc) / (r.attempts + 1))
            * ((r.attempts + 1 : ℕ) : ℚ) = r.mastery_score * r.attempts + sc
        have hnz : ((r.attempts : ℚ) + 1) ≠ 0 := by positivity
        push_cast
        field_simp
    refine ⟨?_, ?_⟩
    · rw [hrun, htail.1, hatt, List.length_cons]
      omega
    · rw [hrun, htail.2, hmta, List.map_cons, List.sum_cons]
      ring

/-- C1: submitting scores s₁..sₙ in `[0,1]` in order for a fresh
`(student_id, normalized topic)` key leaves `attempts = n` and
`mastery_score = (s₁+...+sₙ)/n` (exactly, over ℚ); each step computes
`new_mastery = (old_mastery*attempts + score)/(attempts+1)` when a record
exists and `new_mastery = score, attempts = 1` otherwise, with no clamping. -/
theorem C1_running_average :
    (∀ (student_id topic : PyStr) (subs : List (ℚ × PyStr)),
      (∀ p ∈ subs, 0 ≤ p.1 ∧ p.1 ≤ 1) →
      (subs.map Prod.snd).Nodup →
      subs ≠ [] →
      attemptsOf (runUpdates emptyDB student_id topic subs) student_id topic
          = subs.length ∧
      masteryOf (runUpdates emptyDB student_id topic subs) student_id topic
          = (subs.map Prod.fst).sum / subs.length) ∧
    (∀ db student_id topic score now db' nm na,
      update_student_progress db student_id topic score now = some (db', nm, na) →
      (∀ r, db.student_progress (student_id, pyNormalizeTopic topic) = some r →
        nm = (r.mastery_score * r.attempts + score) / (r.attempts + 1)
          ∧ na = r.attempts + 1) ∧
      (db.student_progress (student_id, pyNormalizeTopic topic) = none →
        nm = score ∧ na = 1)) := by
  constructor
  · intro student_id topic subs hb hnd hne
    have hfresh : ∀ p ∈ subs, ∀ s ∈ emptyDB.study_sessions,
        s.session_id ≠ mkSessionId student_id (pyNormalizeTopic topic) p.2 := by
      intro _ _ s hs
      simp [emptyDB] at hs
    have h := runUpdates_accumulates student_id topic subs emptyDB hb hnd hfresh
    have h0a : attemptsOf emptyDB student_id topic = 0 := rfl
    have h0m : masteryTimesAttempts emptyDB student_id topic = 0 := rfl
    have hatt : attemptsOf (runUpdates emptyDB student_id topic subs)
        student_id topic = subs.length := by
      rw [h.1, h0a, Nat.zero_add]
    have hmta : masteryTimesAttempts (runUpdates emptyDB student_id topic subs)
        student_id topic = (subs.map Prod.fst).sum := by
      rw [h.2, h0m, zero_add]
    refine ⟨hatt, ?_⟩
    have hnz : ((subs.length : ℚ)) ≠ 0 := by
      have hlen : subs.length ≠ 0 := by
        simpa [List.length_eq_zero] using hne
      exact_mod_cast hlen
    cases hrow : (runUpdates emptyDB student_id topic subs).student_progress
        (student_id, pyNormalizeTopic topic) with
    | none =>
      exfalso
      unfold attemptsOf at hatt
      rw [hrow] at hatt
      exact hnz (by exact_mod_cast hatt.symm)
    | some r =>
      have hattr : r.attempts = subs.length := by
        unfold attemptsOf at hatt
        rw [hrow] at hatt
        exact hatt
      have hmtar : r.mastery_score * (r.attempts : ℚ) = (subs.map Prod.fst).sum := by
        unfold masteryTimesAttempts at hmta
        rw [hrow] at hmta
        exact hmta
      unfold masteryOf
      rw [hrow, ← hmtar, hattr]
      exact (mul_div_cancel_right₀ _ hnz).symm
  · intro db student_id topic score now db' nm na h
    constructor
    · intro r hrow
      simp only [update_student_progress, hrow] at h
      split at h
      · exact absurd h (by simp)
      · simp only [Option.some.injEq, Prod.mk.injEq] at h
        exact ⟨h.2.1.symm, h.2.2.symm⟩
    · intro hrow
      simp only [update_student_progress, hrow] at h
      split at h
      · exact absurd h (by simp)
      · simp only [Option.some.injEq, Prod.mk.injEq] at h
        exact ⟨h.2.1.symm, h.2.2.symm⟩

/-- C1 witness: the spec scenario — scores 0.6 then 1.0 for
`("s1", "algebra")` from the fresh store give attempts 2 and mastery 0.8. -/
theorem C1_running_average_witness :
    attemptsOf (runUpdates emptyDB "s1".data "algebra".data
        [(3/5, "t1".data), (1, "t2".data)]) "s1".data "algebra".data = 2 ∧
    masteryOf (runUpdates emptyDB "s1".data "algebra".data
        [(3/5, "t1".data), (1, "t2".data)]) "s1".data "algebra".data = 4/5 := by
  have h := C1_running_average.1 "s1".data "algebra".data
    [(3/5, "t1".data), (1, "t2".data)]
    (by norm_num) (by decide) (by decide)
  refine ⟨h.1, ?_⟩
  rw [h.2]
  norm_num

/-- A database step that upserts a row with one more attempt at a key and
appends one session row for the same key preserves the attempts/session-count
agreement. -/
theorem agree_step (db db' : DB) (sid tk : PyStr) (newRow : ProgressRow)
    (srow : SessionRow)
    (h1 : db'.student_progress (sid, tk) = some newRow)
    (h2 : ∀ k, k ≠ (sid, tk) → db'.student_progress k = db.student_progress k)
    (h3 : db'.study_sessions = db.study_sessions ++ [srow])
    (h4 : srow.student_id = sid) (h5 : srow.topic = tk)
    (h6 : newRow.attempts = attemptsAtKey db (sid, tk) + 1)
    (hinv : progressSessionsAgree db) : progressSessionsAgree db' := by
  intro key
  have hcount : sessionCountAtKey db' key
      = sessionCountAtKey db key
        + (List.filter (fun s => s.student_id == key.1 && s.topic == key.2)
            [srow]).length := by
    unfold sessionCountAtKey
    rw [h3, List.filter_append, List.length_append]
  by_cases hk : key = (sid, tk)
  · subst hk
    have hone : (List.filter
        (fun s => s.student_id == ((sid, tk) : PyStr × PyStr).1
          && s.topic == ((sid, tk) : PyStr × PyStr).2) [srow]).length = 1 := by
      simp [h4, h5]
    have hatt : attemptsAtKey db' (sid, tk) = newRow.attempts := by
      unfold attemptsAtKey
      rw [h1]
    rw [hatt, hcount, hone, h6, hinv (sid, tk)]
  · have hzero : (List.filter
        (fun s => s.student_id == key.1 && s.topic == key.2) [srow]).length = 0 := by
      have hcond : ((srow.student_id == key.1) && (srow.topic == key.2)) = false := by
        rw [h4, h5]
        by_contra hcon
        have hcon' : ((sid == key.1) && (tk == key.2)) = true := by
          revert hcon
          cases ((sid == key.1) && (tk == key.2)) <;> simp
        simp only [Bool.and_eq_true, beq_iff_eq] at hcon'
        exact hk (Prod.ext hcon'.1.symm hcon'.2.symm)
      simp [hcond]
    have hatt : attemptsAtKey db' key = attemptsAtKey db key := by
      unfold attemptsAtKey
      rw [h2 key hk]
    rw [hatt, hcount, hzero, hinv key]
    omega

/-- Each tool call preserves the attempts/session-count agreement: a rejected
or failed call changes nothing, and a successful call applies both writes. -/
theorem toolstep_preserves_agree (db : DB) (c : UpdateCall)
    (hinv : progressSessionsAgree db) :
    progressSessionsAgree
      (update_student_progress_tool db c.student_id c.topic c.score c.now).1 := by
  by_cases hv : validUpdateScore c.score
  · cases hupd : update_student_progress db c.student_id c.topic c.score c.now with
    | none =>
      have hfst : (update_student_progress_tool db c.student_id c.topic c.score
          c.now).1 = db := by
        unfold update_student_progress_tool
        rw [if_pos hv, hupd]
      rw [hfst]
      exact hinv
    | some res =>
      obtain ⟨db', nm, na⟩ := res
      have hfst : (update_student_progress_tool db c.student_id c.topic c.score
          c.now).1 = db' := by
        unfold update_student_progress_tool
        rw [if_pos hv, hupd]
      rw [hfst]
      cases hrow : db.student_progress (c.student_id, pyNormalizeTopic c.topic) with
      | none =>
        simp only [update_student_progress, hrow] at hupd
        split at hupd
        · exact absurd hupd (by simp)
        · simp only [Option.some.injEq, Prod.mk.injEq] at hupd
          obtain ⟨hdb, hnm, hna⟩ := hupd
          subst hdb
          refine agree_step db _ c.student_id (pyNormalizeTopic c.topic)
            ⟨c.score, 1, some c.now⟩ _ (by simp) (fun k hk => by simp [hk]) rfl
            rfl rfl ?_ hinv
          unfold attemptsAtKey
          rw [hrow]
      | some r =>
        simp only [update_student_progress, hrow] at hupd
        split at hupd
        · exact absurd hupd (by simp)
        · simp only [Option.some.injEq, Prod.mk.injEq] at hupd
          obtain ⟨hdb, hnm, hna⟩ := hupd
          subst hdb
          refine agree_step db _ c.student_id (pyNormalizeTopic c.topic)
            ⟨(r.mastery_score * r.attempts + c.score) / (r.attempts + 1),
              r.attempts + 1, some c.now⟩ _ (by simp) (fun k hk => by simp [hk])
            rfl rfl rfl ?_ hinv
          unfold attemptsAtKey
          rw [hrow]
  · have hfst : (update_student_progress_tool db c.student_id c.topic c.score
        c.now).1 = db := by
      unfold update_student_progress_tool
      rw [if_neg hv]
    rw [hfst]
    exact hinv

/-- C3: from the empty database, after any sequence of tool calls every
`(student_id, normalized topic)` key has `attempts` equal to the number of
`study_sessions` rows for that key; and a call on which a write fails leaves
both tables unchanged (the upsert and the session insert commit as one unit,
or not at all). -/
theorem C3_attempts_match_session_log :
    (∀ calls : List UpdateCall, progressSessionsAgree (runCalls emptyDB calls)) ∧
    (∀ (db : DB) (student_id topic : PyStr) (score : ℚ) (now : PyStr),
      update_student_progress db student_id topic score now = none →
      (update_student_progress_tool db student_id topic score now).1 = db) := by
  constructor
  · have hgen : ∀ (calls : List UpdateCall) (db : DB), progressSessionsAgree db →
        progressSessionsAgree (runCalls db calls) := by
      intro calls
      induction calls with
      | nil => intro db h; exact h
      | cons c rest ih =>
        intro db h
        exact ih _ (toolstep_preserves_agree db c h)
    intro calls
    refine hgen calls emptyDB ?_
    intro key
    rfl
  · intro db student_id topic score now h
    unfold update_student_progress_tool
    by_cases hv : validUpdateScore score
    · rw [if_pos hv, h]
    · rw [if_neg hv]

/-- C3 witness: repeating a call with the same timestamp makes the session
insert collide on its primary key; the failed call leaves the state as it
was after the first call. -/
theorem C3_attempts_match_session_log_witness :
    (update_student_progress_tool
        (runCalls emptyDB [⟨"s1".data, "algebra".data, 1, "t".data⟩])
        "s1".data "algebra".data 1 "t".data).1
      = runCalls emptyDB [⟨"s1".data, "algebra".data, 1, "t".data⟩] :=
  C3_attempts_match_session_log.2
    (runCalls emptyDB [⟨"s1".data, "algebra".data, 1, "t".data⟩])
    "s1".data "algebra".data 1 "t".data rfl

/-- Stripping never lengthens a string. -/
theorem pyStrip_length_le (s : PyStr) : (pyStrip s).length ≤ s.length := by
  unfold pyStrip
  calc ((s.dropWhile isPyWhitespace).reverse.dropWhile isPyWhitespace).reverse.length
      = ((s.dropWhile isPyWhitespace).reverse.dropWhile isPyWhitespace).length := by
        rw [List.length_reverse]
    _ ≤ (s.dropWhile isPyWhitespace).reverse.length := (List.dropWhile_sublist _).length_le
    _ = (s.dropWhile isPyWhitespace).length := by rw [List.length_reverse]
    _ ≤ s.length := (List.dropWhile_sublist _).length_le

/-- Stripping a buffer that ends in the two-newline separator loses at least
those two characters. -/
theorem pyStrip_append_nl2_length (t : PyStr) :
    (pyStrip (t ++ nl2)).length ≤ t.length := by
  induction t with
  | nil => decide
  | cons c t ih =>
    by_cases hc : isPyWhitespace c
    · have heq : pyStrip ((c :: t) ++ nl2) = pyStrip (t ++ nl2) := by
        unfold pyStrip
        rw [List.cons_append, List.dropWhile_cons_of_pos hc]
      rw [heq]
      exact le_trans ih (Nat.le_succ _)
    · have h1 : ((c :: t) ++ nl2).dropWhile isPyWhitespace = (c :: t) ++ nl2 := by
        rw [List.cons_append, List.dropWhile_cons_of_neg hc]
      unfold pyStrip
      rw [h1]
      have h2 : ((c :: t) ++ nl2).reverse = '\n' :: '\n' :: (c :: t).reverse := by
        rw [List.reverse_append]
        rfl
      rw [h2, List.dropWhile_cons_of_pos (by decide), List.dropWhile_cons_of_pos (by decide),
        List.length_reverse]
      calc ((c :: t).reverse.dropWhile isPyWhitespace).length
          ≤ (c :: t).reverse.length := (List.dropWhile_sublist _).length_le
        _ = (c :: t).length := List.length_reverse _

/-- The overlap seed `current_chunk[-overlap:] if len(current_chunk) > overlap
else current_chunk` has at most `overlap` characters (for positive overlap). -/
theorem overlap_seed_length (ov : Nat) (s : PyStr) (hov : 0 < ov) :
    (if ov < s.length then pySliceLast ov s else s).length ≤ ov := by
  by_cases h : ov < s.length
  · rw [if_pos h]
    unfold pySliceLast
    rw [if_neg (Nat.pos_iff_ne_zero.mp hov)]
    rw [List.length_drop]
    omega
  · rw [if_neg h]
    omega

set_option maxRecDepth 100000 in
set_option maxHeartbeats 2000000 in
/-- C5 counterexample: on a 300-character paragraph followed by a
900-character paragraph (both ≤ 1000), `semantic_chunk` with the default
sizes produces a second chunk of 1050 characters — over the 1000 cap even
though no paragraph (of the input or of the chunk itself) exceeds 1000: the
overlap-seeded buffer is created without a size check. -/
theorem C5_counterexample :
    (semantic_chunk chunkCexText 1000 150).map (fun c => c.text.length)
        = [300, 1050] ∧
    ((semantic_chunk chunkCexText 1000 150).map fun c =>
        (pySplitOn nl2 c.text).map List.length) = [[300], [148, 900]] ∧
    (allParas chunkCexText).map List.length = [300, 900] ∧
    (1000 : Nat) < 1050 :=
  ⟨rfl, rfl, rfl, by norm_num⟩

set_option maxRecDepth 100000 in
set_option maxHeartbeats 2000000 in
/-- C6 counterexample: on the spec's two-page scenario (1200-character
paragraph on page 1, 50-character paragraph on page 2), the second chunk
starts with 148 characters carried over from the page-1 paragraph — every
`'a'` of the input lies before the `[PAGE_2]` marker — yet it is tagged
`start_page = 2`, exceeding the page (1) active at its first character. -/
theorem C6_counterexample :
    (semantic_chunk pageCexText 1000 150).map (fun c => (c.text, c.start_page))
        = [(List.replicate 1200 'a', 1),
           (List.replicate 148 'a' ++ nl2 ++ List.replicate 50 'b', 2)] ∧
    pageCexText = ("[PAGE_1]\n".data ++ List.replicate 1200 'a' ++ nl2)
        ++ ("[PAGE_2]\n".data ++ List.replicate 50 'b') ∧
    'a' ∉ "[PAGE_2]\n".data ++ List.replicate 50 'b' :=
  ⟨rfl, rfl, by decide⟩

/-- `processPara` on a paragraph that strips to empty: no change. -/
theorem processPara_eq_empty (maxc ov : Nat) (st : ChunkState) (para0 : PyStr)
    (h : (pyStrip para0).isEmpty = true) : processPara maxc ov st para0 = st := by
  unfold processPara
  simp [h]

/-- `processPara` when the stripped paragraph fits the buffer. -/
theorem processPara_eq_fits (maxc ov : Nat) (st : ChunkState) (para0 : PyStr)
    (h1 : ¬(pyStrip para0).isEmpty = true)
    (h2 : st.current_chunk.length + (pyStrip para0).length ≤ maxc) :
    processPara maxc ov st para0 =
      { st with
        chunk_start_page := if st.current_chunk.isEmpty then st.current_page
                            else st.chunk_start_page
        current_chunk := st.current_chunk ++ pyStrip para0 ++ nl2 } := by
  unfold processPara
  simp [h1, h2]

/-- `processPara` in the overflow branch: seal the buffer (when non-empty)
and seed the next buffer with the overlap plus the paragraph. -/
theorem processPara_eq_over (maxc ov : Nat) (st : ChunkState) (para0 : PyStr)
    (h1 : ¬(pyStrip para0).isEmpty = true)
    (h2 : ¬(st.current_chunk.length + (pyStrip para0).length ≤ maxc)) :
    processPara maxc ov st para0 =
      { chunks := if st.current_chunk.isEmpty then st.chunks
          else st.chunks
            ++ [⟨pyStrip st.current_chunk, st.idx, st.chunk_start_page⟩]
        current_chunk := (if ov < st.current_chunk.length then
            pySliceLast ov st.current_chunk else st.current_chunk)
          ++ pyStrip para0 ++ nl2
        current_page := st.current_page
        chunk_start_page := st.current_page
        idx := if st.current_chunk.isEmpty then st.idx else st.idx + 1 } := by
  unfold processPara
  by_cases hcc : st.current_chunk.isEmpty <;> simp [h1, h2, hcc]

/-- One paragraph step of the chunker keeps the buffer of the shape
`t ++ "\n\n"` within `2 + max maxc (ov + L)` characters and every sealed
chunk within `max maxc (ov + L)` characters, provided the stripped paragraph
has at most `L` characters. -/
theorem processPara_size (maxc ov L : Nat) (hov : 0 < ov) (st : ChunkState)
    (para0 : PyStr) (hpara : (pyStrip para0).length ≤ L)
    (hbuf : st.current_chunk = [] ∨ ∃ t, st.current_chunk = t ++ nl2 ∧
      st.current_chunk.length ≤ 2 + max maxc (ov + L))
    (hchunks : ∀ c ∈ st.chunks, c.text.length ≤ max maxc (ov + L)) :
    ((processPara maxc ov st para0).current_chunk = [] ∨
      ∃ t, (processPara maxc ov st para0).current_chunk = t ++ nl2 ∧
        (processPara maxc ov st para0).current_chunk.length
          ≤ 2 + max maxc (ov + L)) ∧
    ∀ c ∈ (processPara maxc ov st para0).chunks,
      c.text.length ≤ max maxc (ov + L) := by
  by_cases hE : (pyStrip para0).isEmpty = true
  · rw [processPara_eq_empty maxc ov st para0 hE]
    exact ⟨hbuf, hchunks⟩
  · by_cases hF : st.current_chunk.length + (pyStrip para0).length ≤ maxc
    · rw [processPara_eq_fits maxc ov st para0 hE hF]
      refine ⟨Or.inr ⟨st.current_chunk ++ pyStrip para0, ?_, ?_⟩, ?_⟩
      · simp [List.append_assoc]
      · show (st.current_chunk ++ pyStrip para0 ++ nl2).length ≤ 2 + max maxc (ov + L)
        have hmc : maxc ≤ max maxc (ov + L) := le_max_left _ _
        simp only [List.length_append, nl2, List.length_cons, List.length_nil]
        omega
      · exact hchunks
    · rw [processPara_eq_over maxc ov st para0 hE hF]
      constructor
      · refine Or.inr ⟨(if ov < st.current_chunk.length then
            pySliceLast ov st.current_chunk else st.current_chunk)
            ++ pyStrip para0, ?_, ?_⟩
        · simp [List.append_assoc]
        · show ((if ov < st.current_chunk.length then
              pySliceLast ov st.current_chunk else st.current_chunk)
              ++ pyStrip para0 ++ nl2).length ≤ 2 + max maxc (ov + L)
          have hseed := overlap_seed_length ov st.current_chunk hov
          have hml : ov + L ≤ max maxc (ov + L) := le_max_right _ _
          simp only [List.length_append, nl2, List.length_cons, List.length_nil]
          omega
      · intro c hc
        by_cases hcc : st.current_chunk.isEmpty = true
        · rw [show (if st.current_chunk.isEmpty then st.chunks
              else st.chunks
                ++ [⟨pyStrip st.current_chunk, st.idx, st.chunk_start_page⟩])
              = st.chunks from if_pos hcc] at hc
          exact hchunks c hc
        · rw [show (if st.current_chunk.isEmpty then st.chunks
              else st.chunks
                ++ [⟨pyStrip st.current_chunk, st.idx, st.chunk_start_page⟩])
              = st.chunks
                ++ [⟨pyStrip st.current_chunk, st.idx, st.chunk_start_page⟩]
              from if_neg hcc] at hc
          rcases List.mem_append.mp hc with hc | hc
          · exact hchunks c hc
          · have hceq : c = ⟨pyStrip st.current_chunk, st.idx, st.chunk_start_page⟩ := by
              simpa using hc
            rcases hbuf with hnil | ⟨t, ht, hlen⟩
            · rw [hnil] at hcc
              exact absurd rfl hcc
            · rw [hceq]
              have hstrip := pyStrip_append_nl2_length t
              rw [← ht] at hstrip
              have hlent : t.length + 2 = st.current_chunk.length := by
                rw [ht]
                simp [nl2]
              show (pyStrip st.current_chunk).length ≤ max maxc (ov + L)
              omega

/-- The paragraph fold keeps the buffer and chunk size invariants. -/
theorem foldParas_size (maxc ov L : Nat) (hov : 0 < ov) :
    ∀ (paras : List PyStr) (st : ChunkState),
      (∀ p ∈ paras, (pyStrip p).length ≤ L) →
      (st.current_chunk = [] ∨ ∃ t, st.current_chunk = t ++ nl2 ∧
        st.current_chunk.length ≤ 2 + max maxc (ov + L)) →
      (∀ c ∈ st.chunks, c.text.length ≤ max maxc (ov + L)) →
      ((paras.foldl (processPara maxc ov) st).current_chunk = [] ∨
        ∃ t, (paras.foldl (processPara maxc ov) st).current_chunk = t ++ nl2 ∧
          (paras.foldl (processPara maxc ov) st).current_chunk.length
            ≤ 2 + max maxc (ov + L)) ∧
      ∀ c ∈ (paras.foldl (processPara maxc ov) st).chunks,
        c.text.length ≤ max maxc (ov + L) := by
  intro paras
  induction paras with
  | nil => intro st _ hbuf hchunks; exact ⟨hbuf, hchunks⟩
  | cons p rest ih =>
    intro st hall hbuf hchunks
    have hstep := processPara_size maxc ov L hov st p
      (hall p (List.mem_cons_self _ _)) hbuf hchunks
    exact ih _ (fun q hq => hall q (List.mem_cons_of_mem _ hq)) hstep.1 hstep.2

/-- The segment fold keeps the buffer and chunk size invariants, provided
every stripped paragraph of the segments is bounded by `L`. -/
theorem foldSegments_size (maxc ov L : Nat) (hov : 0 < ov) :
    ∀ (segs : List Segment) (st : ChunkState),
      (∀ p ∈ allParasSegs segs, p.length ≤ L) →
      (st.current_chunk = [] ∨ ∃ t, st.current_chunk = t ++ nl2 ∧
        st.current_chunk.length ≤ 2 + max maxc (ov + L)) →
      (∀ c ∈ st.chunks, c.text.length ≤ max maxc (ov + L)) →
      ((segs.foldl (processSegment maxc ov) st).current_chunk = [] ∨
        ∃ t, (segs.foldl (processSegment maxc ov) st).current_chunk = t ++ nl2 ∧
          (segs.foldl (processSegment maxc ov) st).current_chunk.length
            ≤ 2 + max maxc (ov + L)) ∧
      ∀ c ∈ (segs.foldl (processSegment maxc ov) st).chunks,
        c.text.length ≤ max maxc (ov + L) := by
  intro segs
  induction segs with
  | nil => intro st _ hbuf hchunks; exact ⟨hbuf, hchunks⟩
  | cons seg rest ih =>
    intro st hall hbuf hchunks
    cases seg with
    | marker n =>
      exact ih { st with current_page := n } (fun p hp => hall p hp) hbuf hchunks
    | text s =>
      have hps : ∀ p ∈ pySplitOn nl2 s, (pyStrip p).length ≤ L := by
        intro p hp
        refine hall (pyStrip p) ?_
        show pyStrip p ∈ allParasSegs (Segment.text s :: rest)
        unfold allParasSegs
        rw [List.foldr_cons]
        exact List.mem_append.mpr (Or.inl (List.mem_map_of_mem pyStrip hp))
      have hrest : ∀ p ∈ allParasSegs rest, p.length ≤ L := by
        intro p hp
        refine hall p ?_
        show p ∈ allParasSegs (Segment.text s :: rest)
        unfold allParasSegs
        rw [List.foldr_cons]
        exact List.mem_append.mpr (Or.inr hp)
      have hfold := foldParas_size maxc ov L hov (pySplitOn nl2 s) st hps hbuf hchunks
      exact ih _ hrest hfold.1 hfold.2

/-- C5 (amended): every chunk's text is at most `max max_chunk_size
(overlap + L)` characters long, where `L` bounds the stripped paragraphs of
the input — a chunk can exceed `max_chunk_size` not only through one
oversized paragraph but also through the unchecked overlap-seeded buffer
(at most `overlap` extra characters on top of the overflowing paragraph). -/
theorem C5_amended_chunk_size_bound :
    ∀ (text : PyStr) (maxc ov L : Nat), 0 < ov →
      (∀ p ∈ allParas text, p.length ≤ L) →
      ∀ c ∈ semantic_chunk text maxc ov, c.text.length ≤ max maxc (ov + L) := by
  intro text maxc ov L hov hall c hc
  have h := foldSegments_size maxc ov L hov (scanSegments text) ⟨[], [], 1, 1, 0⟩
    hall (Or.inl rfl) (by intro c hc; simp at hc)
  unfold semantic_chunk at hc
  by_cases hfin : (pyStrip ((scanSegments text).foldl
      (processSegment maxc ov) ⟨[], [], 1, 1, 0⟩).current_chunk).isEmpty = true
  · rw [if_pos hfin] at hc
    exact h.2 c hc
  · rw [if_neg hfin] at hc
    rcases List.mem_append.mp hc with hc | hc
    · exact h.2 c hc
    · have hceq : c = ⟨pyStrip ((scanSegments text).foldl
          (processSegment maxc ov) ⟨[], [], 1, 1, 0⟩).current_chunk,
          ((scanSegments text).foldl (processSegment maxc ov)
            ⟨[], [], 1, 1, 0⟩).idx,
          ((scanSegments text).foldl (processSegment maxc ov)
            ⟨[], [], 1, 1, 0⟩).chunk_start_page⟩ := by
        simpa using hc
      rcases h.1 with hnil | ⟨t, ht, hlen⟩
      · rw [hnil] at hfin
        exact absurd rfl hfin
      · rw [hceq]
        have hstrip := pyStrip_append_nl2_length t
        rw [← ht] at hstrip
        have hlent : t.length + 2 = ((scanSegments text).foldl
            (processSegment maxc ov) ⟨[], [], 1, 1, 0⟩).current_chunk.length := by
          rw [ht]
          simp [nl2]
        show (pyStrip ((scanSegments text).foldl (processSegment maxc ov)
            ⟨[], [], 1, 1, 0⟩).current_chunk).length ≤ max maxc (ov + L)
        omega

/-- C5 amended witness: on a small input whose paragraphs are at most 5
characters, with `max_chunk_size = 10` and `overlap = 2`, the produced chunk
is within `max 10 (2 + 5)` characters. -/
theorem C5_amended_chunk_size_bound_witness :
    (Chunk.mk "ab".data 0 1).text.length ≤ max 10 (2 + 5) :=
  C5_amended_chunk_size_bound "ab".data 10 2 5 (by norm_num) (by decide)
    (Chunk.mk "ab".data 0 1) (by decide)

/-- Every page value existing in the chunker state stays within a set `S`
through one paragraph step (the step only copies existing page values). -/
theorem processPara_pages (maxc ov : Nat) (S : Nat → Prop) (st : ChunkState)
    (para0 : PyStr) (hcur : S st.current_page) (hstart : S st.chunk_start_page)
    (hchunks : ∀ c ∈ st.chunks, S c.start_page) :
    S (processPara maxc ov st para0).current_page ∧
    S (processPara maxc ov st para0).chunk_start_page ∧
    ∀ c ∈ (processPara maxc ov st para0).chunks, S c.start_page := by
  by_cases hE : (pyStrip para0).isEmpty = true
  · rw [processPara_eq_empty maxc ov st para0 hE]
    exact ⟨hcur, hstart, hchunks⟩
  · by_cases hF : st.current_chunk.length + (pyStrip para0).length ≤ maxc
    · rw [processPara_eq_fits maxc ov st para0 hE hF]
      refine ⟨hcur, ?_, hchunks⟩
      show S (if st.current_chunk.isEmpty then st.current_page
        else st.chunk_start_page)
      by_cases hcc : st.current_chunk.isEmpty = true
      · rw [if_pos hcc]; exact hcur
      · rw [if_neg hcc]; exact hstart
    · rw [processPara_eq_over maxc ov st para0 hE hF]
      refine ⟨hcur, hcur, ?_⟩
      intro c hc
      by_cases hcc : st.current_chunk.isEmpty = true
      · rw [show (if st.current_chunk.isEmpty then st.chunks
            else st.chunks
              ++ [⟨pyStrip st.current_chunk, st.idx, st.chunk_start_page⟩])
            = st.chunks from if_pos hcc] at hc
        exact hchunks c hc
      · rw [show (if st.current_chunk.isEmpty then st.chunks
            else st.chunks
              ++ [⟨pyStrip st.current_chunk, st.idx, st.chunk_start_page⟩])
            = st.chunks
              ++ [⟨pyStrip st.current_chunk, st.idx, st.chunk_start_page⟩]
            from if_neg hcc] at hc
        rcases List.mem_append.mp hc with hc | hc
        · exact hchunks c hc
        · have hceq : c = ⟨pyStrip st.current_chunk, st.idx, st.chunk_start_page⟩ := by
            simpa using hc
          rw [hceq]
          exact hstart

/-- Page values through the paragraph fold. -/
theorem foldParas_pages (maxc ov : Nat) (S : Nat → Prop) :
    ∀ (paras : List PyStr) (st : ChunkState),
      S st.current_page → S st.chunk_start_page →
      (∀ c ∈ st.chunks, S c.start_page) →
      S ((paras.foldl (processPara maxc ov) st).current_page) ∧
      S ((paras.foldl (processPara maxc ov) st).chunk_start_page) ∧
      ∀ c ∈ (paras.foldl (processPara maxc ov) st).chunks, S c.start_page := by
  intro paras
  induction paras with
  | nil => intro st h1 h2 h3; exact ⟨h1, h2, h3⟩
  | cons p rest ih =>
    intro st h1 h2 h3
    have h := processPara_pages maxc ov S st p h1 h2 h3
    exact ih _ h.1 h.2.1 h.2.2

/-- Page values through the segment fold: any page in the final state is
either a page of the initial state or a marker value of the segments. -/
theorem foldSegments_pages (maxc ov : Nat) (S : Nat → Prop) :
    ∀ (segs : List Segment) (st : ChunkState),
      (∀ n, Segment.marker n ∈ segs → S n) →
      S st.current_page → S st.chunk_start_page →
      (∀ c ∈ st.chunks, S c.start_page) →
      S ((segs.foldl (processSegment maxc ov) st).current_page) ∧
      S ((segs.foldl (processSegment maxc ov) st).chunk_start_page) ∧
      ∀ c ∈ (segs.foldl (processSegment maxc ov) st).chunks, S c.start_page := by
  intro segs
  induction segs with
  | nil => intro st _ h1 h2 h3; exact ⟨h1, h2, h3⟩
  | cons seg rest ih =>
    intro st hm h1 h2 h3
    cases seg with
    | marker n =>
      exact ih { st with current_page := n }
        (fun k hk => hm k (List.mem_cons_of_mem _ hk))
        (hm n (List.mem_cons_self _ _)) h2 h3
    | text s =>
      have h := foldParas_pages maxc ov S (pySplitOn nl2 s) st h1 h2 h3
      exact ih _ (fun k hk => hm k (List.mem_cons_of_mem _ hk)) h.1 h.2.1 h.2.2

set_option maxRecDepth 100000 in
set_option maxHeartbeats 2000000 in
/-- C6 (amended): each chunk is tagged with the page counter value current
when the chunk's first retained paragraph was accumulated — so every
`start_page` is 1 or one of the `[PAGE_n]` marker values of the input — and a
chunk that begins with overlap text carried from an earlier page is tagged
with the page of its overflowing paragraph: in the two-page scenario the
second chunk carries page-1 overlap text but is tagged `start_page = 2`. -/
theorem C6_amended_page_tagging :
    (∀ (text : PyStr) (maxc ov : Nat), ∀ c ∈ semantic_chunk text maxc ov,
      c.start_page = 1 ∨ c.start_page ∈ markerPages text) ∧
    (semantic_chunk pageScenarioText 1000 150).map (fun c => (c.text, c.start_page))
      = [(List.replicate 1100 'c', 1),
         (List.replicate 148 'c' ++ nl2 ++ List.replicate 40 'd', 2)] := by
  constructor
  · intro text maxc ov c hc
    have hm : ∀ n, Segment.marker n ∈ scanSegments text →
        (n = 1 ∨ n ∈ markerPages text) := by
      intro n hn
      right
      unfold markerPages
      exact List.mem_filterMap.mpr ⟨Segment.marker n, hn, rfl⟩
    have h := foldSegments_pages maxc ov (fun k => k = 1 ∨ k ∈ markerPages text)
      (scanSegments text) ⟨[], [], 1, 1, 0⟩ hm (Or.inl rfl) (Or.inl rfl)
      (by intro c hc; simp at hc)
    unfold semantic_chunk at hc
    by_cases hfin : (pyStrip ((scanSegments text).foldl
        (processSegment maxc ov) ⟨[], [], 1, 1, 0⟩).current_chunk).isEmpty = true
    · rw [if_pos hfin] at hc
      exact h.2.2 c hc
    · rw [if_neg hfin] at hc
      rcases List.mem_append.mp hc with hc | hc
      · exact h.2.2 c hc
      · have hceq : c = ⟨pyStrip ((scanSegments text).foldl
            (processSegment maxc ov) ⟨[], [], 1, 1, 0⟩).current_chunk,
            ((scanSegments text).foldl (processSegment maxc ov)
              ⟨[], [], 1, 1, 0⟩).idx,
            ((scanSegments text).foldl (processSegment maxc ov)
              ⟨[], [], 1, 1, 0⟩).chunk_start_page⟩ := by
          simpa using hc
        rw [hceq]
        exact h.2.1
  · rfl

/-- C6 amended witness: the single chunk of a marker-free input is tagged
with page 1. -/
theorem C6_amended_page_tagging_witness :
    (Chunk.mk "hi".data 0 1).start_page = 1 ∨
      (Chunk.mk "hi".data 0 1).start_page ∈ markerPages "hi".data :=
  C6_amended_page_tagging.1 "hi".data 1000 150 (Chunk.mk "hi".data 0 1) (by decide)
